import Mathlib

set_option maxRecDepth 20000

/-!
Verification of the Visual Recipe Assistant (src/index.tsx).

The development shallowly embeds the component's state and operations:

* `Recipe`, `NutritionalInfo` — the TypeScript `Recipe` record type.
* `parseJson` — an executable model of the host `JSON.parse` (strict RFC 8259
  grammar, fueled recursive-descent).  Numbers are kept as their source token
  (no claim depends on numeric values), and `\uXXXX` escapes denoting UTF-16
  surrogate code units are mapped through `Char.ofNat` (Lean `Char` holds
  Unicode scalar values, so lone/paired surrogate escapes are approximated);
  acceptance/rejection of inputs is unaffected by these two choices.
* `stringifyRecipes` — the host `JSON.stringify` applied to a `Recipe[]`
  (insertion-ordered keys, ECMA `QuoteJSONString` escaping, no whitespace).
* `saveRecipe`, `deleteRecipe`, `loadEffect`, `handleImageChange`,
  `generateRecipes` — the component's operations, with `localStorage`
  modeled as the `Option String` slot under the key 'savedRecipes' and the
  external inference call modeled by an environment record together with a
  count of collaborator invocations.
-/

/-- The nested `nutritionalInfo` record of the TypeScript `Recipe` type. -/
structure NutritionalInfo where
  calories : String
  protein : String
  carbohydrates : String
  fats : String
deriving DecidableEq, Repr

/-- The TypeScript `Recipe` type (src/index.tsx lines 13-24). -/
structure Recipe where
  recipeName : String
  ingredients : List String
  instructions : List String
  servingSize : String
  nutritionalInfo : NutritionalInfo
deriving DecidableEq, Repr

/-- JSON values as produced by `JSON.parse`: objects keep their textual field
order (JS objects preserve insertion order for non-numeric keys), numbers keep
their source token. -/
inductive Json where
  | null : Json
  | bool (b : Bool) : Json
  | num (raw : String) : Json
  | str (s : String) : Json
  | arr (elems : List Json) : Json
  | obj (fields : List (String × Json)) : Json

/-- JSON insignificant whitespace (RFC 8259: space, tab, line feed, carriage
return). -/
def isJsonWs (c : Char) : Bool :=
  c = ' ' || c = '\t' || c = '\n' || c = '\r'

/-- Drop leading JSON whitespace. -/
def skipWs : List Char → List Char
  | [] => []
  | c :: cs => if isJsonWs c then skipWs cs else c :: cs

/-- Value of a hexadecimal digit, as accepted in `\uXXXX` escapes. -/
def hexVal (c : Char) : Option Nat :=
  if '0' ≤ c ∧ c ≤ '9' then some (c.toNat - '0'.toNat)
  else if 'a' ≤ c ∧ c ≤ 'f' then some (c.toNat - 'a'.toNat + 10)
  else if 'A' ≤ c ∧ c ≤ 'F' then some (c.toNat - 'A'.toNat + 10)
  else none

/-- Decode one escape sequence of a JSON string literal (the backslash
already consumed): exactly `\" \\ \/ \b \f \n \r \t \uXXXX` are accepted.
Returns the decoded character and the remaining input.  `\uXXXX` goes through
`Char.ofNat`; escapes denoting UTF-16 surrogate code units are thereby
approximated (Lean `Char` holds Unicode scalar values), without affecting
which inputs are accepted. -/
def parseEscape : List Char → Option (Char × List Char)
  | [] => none
  | e :: r =>
    if e = '"' then some ('"', r)
    else if e = '\\' then some ('\\', r)
    else if e = '/' then some ('/', r)
    else if e = 'b' then some (Char.ofNat 8, r)
    else if e = 'f' then some (Char.ofNat 12, r)
    else if e = 'n' then some (Char.ofNat 10, r)
    else if e = 'r' then some (Char.ofNat 13, r)
    else if e = 't' then some (Char.ofNat 9, r)
    else if e = 'u' then
      match r with
      | a :: b :: c :: d :: r2 =>
        match hexVal a, hexVal b, hexVal c, hexVal d with
        | some w, some x, some y, some z =>
          some (Char.ofNat (((w * 16 + x) * 16 + y) * 16 + z), r2)
        | _, _, _, _ => none
      | _ => none
    else none

/-- Parse the body of a JSON string literal (the opening quote already
consumed): literal characters must be `0x20` or above, escapes per
`parseEscape`.  Returns the decoded characters and the remaining input after
the closing quote.  Every step consumes at least one character, so the fuel
`length + 1` supplied at the call sites is never exhausted on any input. -/
def parseStringAux : Nat → List Char → Option (List Char × List Char)
  | 0, _ => none
  | _ + 1, [] => none
  | fuel + 1, c :: rest =>
    if c = '"' then some ([], rest)
    else if c = '\\' then
      match parseEscape rest with
      | some (e, r) => (parseStringAux fuel r).map (fun p => (e :: p.1, p.2))
      | none => none
    else if c.toNat < 32 then none
    else (parseStringAux fuel rest).map (fun p => (c :: p.1, p.2))

/-- Integer part of a JSON number: `0`, or a nonzero digit followed by
digits. -/
def parseIntPart : List Char → Option (List Char × List Char)
  | [] => none
  | c :: rest =>
    if c = '0' then some (['0'], rest)
    else if c.isDigit then
      match rest.span Char.isDigit with
      | (ds, r) => some (c :: ds, r)
    else none

/-- Optional fraction part of a JSON number; a `.` must be followed by at
least one digit. -/
def parseFracPart : List Char → Option (List Char × List Char)
  | '.' :: rest =>
    match rest.span Char.isDigit with
    | ([], _) => none
    | (ds, r) => some ('.' :: ds, r)
  | cs => some ([], cs)

/-- Optional exponent part of a JSON number; `e`/`E`, an optional sign, then
at least one digit. -/
def parseExpPart : List Char → Option (List Char × List Char)
  | [] => some ([], [])
  | c :: rest =>
    if c = 'e' || c = 'E' then
      match rest with
      | [] => none
      | s :: r =>
        if s = '+' || s = '-' then
          match r.span Char.isDigit with
          | ([], _) => none
          | (ds, r2) => some (c :: s :: ds, r2)
        else
          match rest.span Char.isDigit with
          | ([], _) => none
          | (ds, r2) => some (c :: ds, r2)
    else some ([], c :: rest)

/-- A JSON number token: optional minus, integer part, optional fraction,
optional exponent.  Returns the token's characters and the rest. -/
def parseNumber (cs : List Char) : Option (List Char × List Char) :=
  match (match cs with
         | '-' :: r => (['-'], r)
         | _ => (([] : List Char), cs)) with
  | (sign, cs1) =>
    match parseIntPart cs1 with
    | none => none
    | some (ip, cs2) =>
      match parseFracPart cs2 with
      | none => none
      | some (fp, cs3) =>
        match parseExpPart cs3 with
        | none => none
        | some (ep, cs4) => some (sign ++ ip ++ fp ++ ep, cs4)

mutual

/-- Recursive-descent JSON value parser.  Expects the input to start at a
value (leading whitespace already skipped); returns the value and the rest of
the input.  `fuel` bounds the recursion depth; every recursive call follows
at least one consumed character and at most two calls share one consumed
character, so `2 * length + 2` fuel is never exhausted (`parseJson` supplies
it). -/
def parseValue : Nat → List Char → Option (Json × List Char)
  | 0, _ => none
  | _ + 1, [] => none
  | fuel + 1, c :: rest =>
    if c = 'n' then
      match rest with
      | 'u' :: 'l' :: 'l' :: r => some (.null, r)
      | _ => none
    else if c = 't' then
      match rest with
      | 'r' :: 'u' :: 'e' :: r => some (.bool true, r)
      | _ => none
    else if c = 'f' then
      match rest with
      | 'a' :: 'l' :: 's' :: 'e' :: r => some (.bool false, r)
      | _ => none
    else if c = '"' then
      match parseStringAux (rest.length + 1) rest with
      | some (s, r) => some (.str ⟨s⟩, r)
      | none => none
    else if c = '[' then
      match skipWs rest with
      | ']' :: r => some (.arr [], r)
      | cs2 =>
        match parseElems fuel cs2 with
        | some (js, r) => some (.arr js, r)
        | none => none
    else if c = '{' then
      match skipWs rest with
      | '}' :: r => some (.obj [], r)
      | cs2 =>
        match parseMembers fuel cs2 with
        | some (ms, r) => some (.obj ms, r)
        | none => none
    else if c = '-' || c.isDigit then
      match parseNumber (c :: rest) with
      | some (ds, r) => some (.num ⟨ds⟩, r)
      | none => none
    else none

/-- Elements of a non-empty JSON array, positioned at the start of an element
(whitespace skipped); consumes through the closing `]`. -/
def parseElems : Nat → List Char → Option (List Json × List Char)
  | 0, _ => none
  | fuel + 1, cs =>
    match parseValue fuel cs with
    | none => none
    | some (j, r) =>
      match skipWs r with
      | ',' :: r2 =>
        match parseElems fuel (skipWs r2) with
        | some (js, r3) => some (j :: js, r3)
        | none => none
      | ']' :: r2 => some ([j], r2)
      | _ => none

/-- Members of a non-empty JSON object, positioned at the opening quote of a
key (whitespace skipped); consumes through the closing `}`. -/
def parseMembers : Nat → List Char → Option (List (String × Json) × List Char)
  | 0, _ => none
  | fuel + 1, cs =>
    match cs with
    | '"' :: cs1 =>
      match parseStringAux (cs1.length + 1) cs1 with
      | none => none
      | some (k, r) =>
        match skipWs r with
        | ':' :: r2 =>
          match parseValue fuel (skipWs r2) with
          | none => none
          | some (v, r3) =>
            match skipWs r3 with
            | ',' :: r4 =>
              match parseMembers fuel (skipWs r4) with
              | some (ms, r5) => some ((⟨k⟩, v) :: ms, r5)
              | none => none
            | '}' :: r4 => some ([(⟨k⟩, v)], r4)
            | _ => none
        | _ => none
    | _ => none

end

/-- Model of `JSON.parse`: whitespace-trimmed single value covering the whole
input; `none` models a thrown `SyntaxError`. -/
def parseJson (s : String) : Option Json :=
  match parseValue (2 * s.data.length + 2) (skipWs s.data) with
  | some (j, rest) => if skipWs rest = [] then some j else none
  | none => none

/-- Lowercase hexadecimal digit, as emitted by `JSON.stringify` in `\u00xx`
escapes. -/
def hexLower (k : Nat) : Char :=
  if k < 10 then Char.ofNat ('0'.toNat + k) else Char.ofNat ('a'.toNat + k - 10)

/-- Escaping of one character by `JSON.stringify` (ECMA `QuoteJSONString`):
`"` and `\` get a backslash, the five named control characters their short
escapes, other control characters `\u00xx`, everything else is literal. -/
def escChar (c : Char) : List Char :=
  if c = '"' then ['\\', '"']
  else if c = '\\' then ['\\', '\\']
  else if c.toNat = 8 then ['\\', 'b']
  else if c.toNat = 9 then ['\\', 't']
  else if c.toNat = 10 then ['\\', 'n']
  else if c.toNat = 12 then ['\\', 'f']
  else if c.toNat = 13 then ['\\', 'r']
  else if c.toNat < 32 then
    ['\\', 'u', '0', '0', hexLower (c.toNat / 16), hexLower (c.toNat % 16)]
  else [c]

/-- Escape a character sequence for a JSON string literal, prepended to a
continuation `rest` (all serializers below thread an explicit continuation, so
the emitted text is one right-nested character list). -/
def escListTo (cs : List Char) (rest : List Char) : List Char :=
  cs.foldr (fun c acc => escChar c ++ acc) rest

/-- `JSON.stringify` of a string value: opening quote, escaped body, closing
quote, then the continuation. -/
def encStrTo (s : String) (rest : List Char) : List Char :=
  '"' :: escListTo s.data ('"' :: rest)

/-- Second and later elements of a serialized `string[]`: each is preceded by
a comma; the list ends with `]`. -/
def encStrElemsTo : List String → List Char → List Char
  | [], rest => ']' :: rest
  | s :: ss, rest => ',' :: encStrTo s (encStrElemsTo ss rest)

/-- `JSON.stringify` of a `string[]` value. -/
def encStrArrTo : List String → List Char → List Char
  | [], rest => '[' :: ']' :: rest
  | s :: ss, rest => '[' :: encStrTo s (encStrElemsTo ss rest)

/-- The members of a serialized `nutritionalInfo` record (keys in declaration
order, as JS objects serialize in insertion order), through the closing
`}`. -/
def encNutritionBodyTo (n : NutritionalInfo) (rest : List Char) : List Char :=
  encStrTo "calories" (':' :: encStrTo n.calories
    (',' :: encStrTo "protein" (':' :: encStrTo n.protein
    (',' :: encStrTo "carbohydrates" (':' :: encStrTo n.carbohydrates
    (',' :: encStrTo "fats" (':' :: encStrTo n.fats ('}' :: rest))))))))

/-- `JSON.stringify` of a `nutritionalInfo` record. -/
def encNutritionTo (n : NutritionalInfo) (rest : List Char) : List Char :=
  '{' :: encNutritionBodyTo n rest

/-- The members of one serialized `Recipe` (keys in declaration order),
through the closing `}`. -/
def encRecipeBodyTo (r : Recipe) (rest : List Char) : List Char :=
  encStrTo "recipeName" (':' :: encStrTo r.recipeName
    (',' :: encStrTo "ingredients" (':' :: encStrArrTo r.ingredients
    (',' :: encStrTo "instructions" (':' :: encStrArrTo r.instructions
    (',' :: encStrTo "servingSize" (':' :: encStrTo r.servingSize
    (',' :: encStrTo "nutritionalInfo"
      (':' :: encNutritionTo r.nutritionalInfo ('}' :: rest))))))))))

/-- `JSON.stringify` of one `Recipe`. -/
def encRecipeTo (r : Recipe) (rest : List Char) : List Char :=
  '{' :: encRecipeBodyTo r rest

/-- Second and later elements of a serialized `Recipe[]`. -/
def encRecipeElemsTo : List Recipe → List Char → List Char
  | [], rest => ']' :: rest
  | r :: l, rest => ',' :: encRecipeTo r (encRecipeElemsTo l rest)

/-- `JSON.stringify` of a `Recipe[]`. -/
def encRecipesTo : List Recipe → List Char → List Char
  | [], rest => '[' :: ']' :: rest
  | r :: l, rest => '[' :: encRecipeTo r (encRecipeElemsTo l rest)

/-- `JSON.stringify(updatedRecipes)` as written to the 'savedRecipes' slot. -/
def stringifyRecipes (l : List Recipe) : String :=
  ⟨encRecipesTo l []⟩

/-- The JSON value denoted by a `nutritionalInfo` record. -/
def encodeNutrition (n : NutritionalInfo) : Json :=
  .obj [("calories", .str n.calories), ("protein", .str n.protein),
        ("carbohydrates", .str n.carbohydrates), ("fats", .str n.fats)]

/-- The JSON value denoted by one `Recipe`. -/
def encodeRecipe (r : Recipe) : Json :=
  .obj [("recipeName", .str r.recipeName),
        ("ingredients", .arr (r.ingredients.map .str)),
        ("instructions", .arr (r.instructions.map .str)),
        ("servingSize", .str r.servingSize),
        ("nutritionalInfo", encodeNutrition r.nutritionalInfo)]

/-- The JSON value denoted by a `Recipe[]`. -/
def encodeRecipes (l : List Recipe) : Json :=
  .arr (l.map encodeRecipe)

/-- Read a JSON value as a string (JS field typed `string`). -/
def asStr : Json → Option String
  | .str s => some s
  | _ => none

/-- Read a sequence of JSON values as strings (all must be strings). -/
def asStrListAux : List Json → Option (List String)
  | [] => some []
  | j :: js =>
    match asStr j, asStrListAux js with
    | some s, some ss => some (s :: ss)
    | _, _ => none

/-- Read a JSON value as a `string[]`. -/
def asStrList : Json → Option (List String)
  | .arr xs => asStrListAux xs
  | _ => none

/-- JS property access on a parsed object. -/
def getField (j : Json) (k : String) : Option Json :=
  match j with
  | .obj ms => (ms.find? (fun p => p.1 == k)).map (fun p => p.2)
  | _ => none

/-- Read a JSON value as a `nutritionalInfo` record (all four sub-fields
required, per the response schema of src/index.tsx lines 126-136). -/
def decodeNutrition (j : Json) : Option NutritionalInfo := do
  let c ← (getField j "calories").bind asStr
  let p ← (getField j "protein").bind asStr
  let cb ← (getField j "carbohydrates").bind asStr
  let f ← (getField j "fats").bind asStr
  pure ⟨c, p, cb, f⟩

/-- Read a JSON value as a `Recipe` (all five fields required, per the
response schema of src/index.tsx line 138). -/
def decodeRecipe (j : Json) : Option Recipe := do
  let n ← (getField j "recipeName").bind asStr
  let ing ← (getField j "ingredients").bind asStrList
  let ins ← (getField j "instructions").bind asStrList
  let sv ← (getField j "servingSize").bind asStr
  let nu ← (getField j "nutritionalInfo").bind decodeNutrition
  pure ⟨n, ing, ins, sv, nu⟩

/-- Read a sequence of JSON values as `Recipe` records (all must decode). -/
def decodeRecipesAux : List Json → Option (List Recipe)
  | [] => some []
  | j :: js =>
    match decodeRecipe j, decodeRecipesAux js with
    | some r, some l => some (r :: l)
    | _, _ => none

/-- Read a JSON value as a `Recipe[]`. -/
def decodeRecipes : Json → Option (List Recipe)
  | .arr xs => decodeRecipesAux xs
  | _ => none

/-- The saved-recipe store: the React `savedRecipes` state together with the
`localStorage` slot under the key 'savedRecipes' (`none` = key absent). -/
structure StoreState where
  savedRecipes : List Recipe
  storage : Option String
deriving DecidableEq, Repr

/-- `saveRecipe` (src/index.tsx lines 155-162): append unless a recipe with
the same `recipeName` is already present, then write the full list back. -/
def saveRecipe (recipeToSave : Recipe) (st : StoreState) : StoreState :=
  if st.savedRecipes.any (fun r => r.recipeName == recipeToSave.recipeName) then st
  else
    let updatedRecipes := st.savedRecipes ++ [recipeToSave]
    { savedRecipes := updatedRecipes,
      storage := some (stringifyRecipes updatedRecipes) }

/-- `savedRecipes.filter((_, index) => index !== indexToDelete)`. -/
def filterOutIdx (i : Nat) (l : List Recipe) : List Recipe :=
  (l.enum.filter (fun p => p.1 != i)).map Prod.snd

/-- `deleteRecipe` (src/index.tsx lines 164-168): keep the entries whose
position differs from `indexToDelete`, then write the full list back. -/
def deleteRecipe (indexToDelete : Nat) (st : StoreState) : StoreState :=
  let updatedRecipes := filterOutIdx indexToDelete st.savedRecipes
  { savedRecipes := updatedRecipes,
    storage := some (stringifyRecipes updatedRecipes) }

/-- A user-initiated mutation of the saved-recipe store. -/
inductive StoreOp where
  | save (r : Recipe)
  | delete (i : Nat)

/-- Apply one store operation. -/
def applyOp (st : StoreState) : StoreOp → StoreState
  | .save r => saveRecipe r st
  | .delete i => deleteRecipe i st

/-- Run a sequence of store operations. -/
def runOps (ops : List StoreOp) (st : StoreState) : StoreState :=
  ops.foldl applyOp st

/-- The store at process start: empty state, key absent. -/
def initialStore : StoreState :=
  { savedRecipes := [], storage := none }

/-- The component state after the load effect: the runtime value of the
`savedRecipes` React state (a raw parsed JSON value — the effect performs no
schema validation) and the resulting `localStorage` slot. -/
structure LoadResult where
  savedRecipes : Json
  storage : Option String

/-- The load effect (src/index.tsx lines 40-51): read the key; a null or
empty-string result is falsy and is skipped; otherwise `JSON.parse` installs
the parsed value, and a parse failure removes the key, leaving the initial
empty state. -/
def loadEffect (stored : Option String) : LoadResult :=
  match stored with
  | none => { savedRecipes := .arr [], storage := none }
  | some s =>
    if s = "" then { savedRecipes := .arr [], storage := some "" }
    else
      match parseJson s with
      | some j => { savedRecipes := j, storage := some s }
      | none => { savedRecipes := .arr [], storage := none }

/-- A selected image file (the DOM `File`: only its identity and MIME type
matter to the component). -/
structure ImageFile where
  name : String
  mime : String
deriving DecidableEq, Repr

/-- The two view modes. -/
inductive ViewMode where
  | generator
  | saved
deriving DecidableEq, Repr

/-- The transient component state (React `useState` hooks of `App`).
`recipes` holds the runtime value installed by `setRecipes` — a raw parsed
JSON value, since `generateRecipes` performs no schema validation. -/
structure AppState where
  selectedImage : Option ImageFile
  previewUrl : String
  recipes : Json
  isLoading : Bool
  error : String
  savedRecipes : List Recipe
  view : ViewMode
  expandedRecipeIndex : Option Nat

/-- `handleImageChange` (src/index.tsx lines 53-61): if a file was picked,
select it, set its object URL as preview, and clear results and error;
otherwise do nothing.  `url` is the value of `URL.createObjectURL(file)`
supplied by the host. -/
def handleImageChange (file : Option ImageFile) (url : String) (st : AppState) : AppState :=
  match file with
  | none => st
  | some f =>
    { st with selectedImage := some f, previewUrl := url,
              recipes := .arr [], error := "" }

/-- Outcome of the environment during one `generateRecipes` call:
`encodeResult` is the outcome of `fileToBase64` (`none` = the file read
rejects), `response` the outcome of `ai.models.generateContent` (`none` = the
call throws, `some text` = `response.text`). -/
structure GenEnv where
  encodeResult : Option String
  response : Option String

/-- The validation error shown when no image is selected. -/
def noImageMsg : String := "Please upload an image first."

/-- The single generic generation-failure message. -/
def genFailMsg : String :=
  "Failed to generate recipes. The model may be unable to identify ingredients or the image is unclear. Please try another image."

/-- `generateRecipes` (src/index.tsx lines 73-153), as a state transformer
returning the new state and the number of invocations of the external
inference service.  Without an image it only sets the validation error.
Otherwise it sets loading/clears error and results, and the `try/catch`
collapses an encoding failure (before any service call), a failed service
call, and a `JSON.parse` failure of the response text into the one generic
error; a parseable response is installed unvalidated; `finally` clears the
loading flag. -/
def generateRecipes (st : AppState) (env : GenEnv) : AppState × Nat :=
  match st.selectedImage with
  | none => ({ st with error := noImageMsg }, 0)
  | some _ =>
    match env.encodeResult with
    | none => ({ st with isLoading := false, error := genFailMsg, recipes := .arr [] }, 0)
    | some _ =>
      match env.response with
      | none => ({ st with isLoading := false, error := genFailMsg, recipes := .arr [] }, 1)
      | some text =>
        match parseJson text with
        | none => ({ st with isLoading := false, error := genFailMsg, recipes := .arr [] }, 1)
        | some j => ({ st with isLoading := false, error := "", recipes := j }, 1)

example : parseJson "null" = some .null := rfl

example : parseJson "" = none := rfl

example : parseJson " [1, true] " = some (.arr [.num "1", .bool true]) := rfl

example : parseJson "\x7b\"a\":\"b\"\x7d" = some (.obj [("a", .str "b")]) := rfl

example : parseJson "\x7b" = none := rfl

example : stringifyRecipes [] = "[]" := rfl

example :
    stringifyRecipes [⟨"a\"b", ["x"], [], "1", ⟨"1", "2", "3", "4"⟩⟩]
      = "[\x7b\"recipeName\":\"a\\\"b\",\"ingredients\":[\"x\"],\"instructions\":[],\"servingSize\":\"1\",\"nutritionalInfo\":\x7b\"calories\":\"1\",\"protein\":\"2\",\"carbohydrates\":\"3\",\"fats\":\"4\"\x7d\x7d]" := rfl

example :
    parseJson (stringifyRecipes [⟨"a", ["x"], ["y"], "1", ⟨"1", "2", "3", "4"⟩⟩])
      = some (encodeRecipes [⟨"a", ["x"], ["y"], "1", ⟨"1", "2", "3", "4"⟩⟩]) := rfl

/-! ### List index-filter lemmas for `deleteRecipe` -/

theorem enumFrom_filter_lt_map {α : Type} (xs : List α) (n i : Nat) (h : i < n) :
    ((List.enumFrom n xs).filter (fun p => p.1 != i)).map Prod.snd = xs := by
  induction xs generalizing n with
  | nil => simp
  | cons x xs ih =>
    have hne : (((n, x) : Nat × α).1 != i) = true := by
      simp only [bne_iff_ne, ne_eq]
      omega
    rw [List.enumFrom_cons,
        @List.filter_cons_of_pos _ (fun p => p.1 != i) (n, x) (List.enumFrom (n + 1) xs) hne]
    simp only [List.map_cons]
    rw [ih (n + 1) (by omega)]

theorem enumFrom_filter_bne_map {α : Type} (xs : List α) (n i : Nat) :
    ((List.enumFrom n xs).filter (fun p => p.1 != (n + i))).map Prod.snd
      = xs.take i ++ xs.drop (i + 1) := by
  induction xs generalizing n i with
  | nil => simp
  | cons x xs ih =>
    cases i with
    | zero =>
      have h0 : ¬(((n, x) : Nat × α).1 != (n + 0)) = true := by simp
      rw [List.enumFrom_cons,
          @List.filter_cons_of_neg _ (fun p => p.1 != (n + 0)) (n, x) (List.enumFrom (n + 1) xs) h0]
      rw [enumFrom_filter_lt_map xs (n + 1) (n + 0) (by omega)]
      simp
    | succ j =>
      have h1 : (((n, x) : Nat × α).1 != (n + (j + 1))) = true := by
        simp only [bne_iff_ne, ne_eq]
        omega
      rw [List.enumFrom_cons,
          @List.filter_cons_of_pos _ (fun p => p.1 != (n + (j + 1))) (n, x) (List.enumFrom (n + 1) xs) h1]
      simp only [List.map_cons]
      have := ih (n + 1) j
      rw [show n + (j + 1) = (n + 1) + j by omega, this]
      simp [List.take_succ_cons, List.drop_succ_cons]

theorem filterOutIdx_eq (i : Nat) (l : List Recipe) :
    filterOutIdx i l = l.take i ++ l.drop (i + 1) := by
  have h := enumFrom_filter_bne_map l 0 i
  simpa [filterOutIdx, List.enum] using h

theorem take_append_drop_succ_sublist {α : Type} (l : List α) (i : Nat) :
    (l.take i ++ l.drop (i + 1)).Sublist l := by
  induction l generalizing i with
  | nil => simp
  | cons x xs ih =>
    cases i with
    | zero =>
      simp only [List.take_zero, List.drop_succ_cons, List.drop_zero, List.nil_append]
      exact List.sublist_cons_self x xs
    | succ j =>
      rw [List.take_succ_cons, List.drop_succ_cons]
      exact (ih j).cons₂ x

/-- Claim C2: `deleteRecipe i` removes exactly the entry at position `i` when
`i` is in range (keeping the remaining entries in their relative order: the
result is `take i ++ drop (i+1)`), and leaves the store contents unchanged
when `i` is out of range. -/
theorem deleteRecipe_removes_exactly (st : StoreState) (i : Nat) :
    (i < st.savedRecipes.length →
      (deleteRecipe i st).savedRecipes
        = st.savedRecipes.take i ++ st.savedRecipes.drop (i + 1))
    ∧ (st.savedRecipes.length ≤ i →
      (deleteRecipe i st).savedRecipes = st.savedRecipes) := by
  constructor <;> intro h
  · simp [deleteRecipe, filterOutIdx_eq]
  · simp only [deleteRecipe, filterOutIdx_eq]
    rw [List.take_of_length_le h, List.drop_eq_nil_of_le (by omega), List.append_nil]

/-- A sample recipe used in concrete witnesses. -/
def wRecipe : Recipe :=
  ⟨"Tomato Soup", ["tomato", "salt"], ["boil", "blend"], "2 servings",
   ⟨"100", "2g", "10g", "1g"⟩⟩

/-- A second sample recipe used in concrete witnesses. -/
def wRecipe2 : Recipe :=
  ⟨"Salad", ["lettuce"], ["chop"], "1 serving", ⟨"50", "1g", "5g", "0g"⟩⟩

/-- A sample populated store used in concrete witnesses. -/
def wStore : StoreState := { savedRecipes := [wRecipe, wRecipe2], storage := none }

/-- Witness for C2 at a concrete store: an in-range delete and an
out-of-range delete. -/
theorem deleteRecipe_removes_exactly_witness :
    (deleteRecipe 0 wStore).savedRecipes = [wRecipe2]
    ∧ (deleteRecipe 5 wStore).savedRecipes = [wRecipe, wRecipe2] := by
  constructor
  · have h := (deleteRecipe_removes_exactly wStore 0).1 (by decide)
    simpa using h
  · have h := (deleteRecipe_removes_exactly wStore 5).2 (by decide)
    exact h

/-- Claim C1: saving a recipe whose `recipeName` is already present leaves
the whole store state — the in-memory list and the durable-storage slot —
unchanged (so repeated saves keep the length, and a same-name save with
different ingredients leaves the original entry intact). -/
theorem saveRecipe_duplicate_name_noop (r : Recipe) (st : StoreState)
    (h : ∃ x ∈ st.savedRecipes, x.recipeName = r.recipeName) :
    saveRecipe r st = st := by
  obtain ⟨x, hx, hn⟩ := h
  unfold saveRecipe
  rw [if_pos (List.any_eq_true.mpr ⟨x, hx, by simp [hn]⟩)]

/-- Witness for C1: saving a same-name, different-ingredients recipe into a
concrete store is a no-op. -/
theorem saveRecipe_duplicate_name_noop_witness :
    saveRecipe ⟨"Tomato Soup", ["pepper"], ["stir"], "", ⟨"", "", "", ""⟩⟩ wStore
      = wStore :=
  saveRecipe_duplicate_name_noop _ wStore ⟨wRecipe, by decide, rfl⟩

/-! ### Name-uniqueness invariant -/

theorem saveRecipe_names_nodup (r : Recipe) (st : StoreState)
    (h : (st.savedRecipes.map Recipe.recipeName).Nodup) :
    ((saveRecipe r st).savedRecipes.map Recipe.recipeName).Nodup := by
  unfold saveRecipe
  split
  · exact h
  · next hany =>
    simp only [List.map_append, List.map_cons, List.map_nil]
    rw [List.nodup_append]
    refine ⟨h, List.nodup_singleton _, ?_⟩
    intro a ha hb
    simp only [List.mem_singleton] at hb
    subst hb
    obtain ⟨x, hx, hxa⟩ := List.mem_map.mp ha
    exact hany (List.any_eq_true.mpr ⟨x, hx, by simp [hxa]⟩)

theorem deleteRecipe_names_nodup (i : Nat) (st : StoreState)
    (h : (st.savedRecipes.map Recipe.recipeName).Nodup) :
    ((deleteRecipe i st).savedRecipes.map Recipe.recipeName).Nodup := by
  have hsub : ((deleteRecipe i st).savedRecipes).Sublist st.savedRecipes := by
    simpa [deleteRecipe, filterOutIdx_eq] using
      take_append_drop_succ_sublist st.savedRecipes i
  exact (hsub.map Recipe.recipeName).nodup h

theorem runOps_names_nodup (ops : List StoreOp) (st : StoreState)
    (h : (st.savedRecipes.map Recipe.recipeName).Nodup) :
    (((runOps ops st).savedRecipes).map Recipe.recipeName).Nodup := by
  induction ops generalizing st with
  | nil => exact h
  | cons op ops ih =>
    refine ih (applyOp st op) ?_
    cases op with
    | save r => exact saveRecipe_names_nodup r st h
    | delete i => exact deleteRecipe_names_nodup i st h

/-- Claim C4: every store state reachable from the empty store by save and
delete operations has pairwise-distinct `recipeName` values. -/
theorem reachable_store_names_nodup (ops : List StoreOp) :
    (((runOps ops initialStore).savedRecipes).map Recipe.recipeName).Nodup :=
  runOps_names_nodup ops initialStore (by simp [initialStore])

/-- A sample transient component state with nothing selected. -/
def wApp : AppState :=
  { selectedImage := none, previewUrl := "", recipes := .arr [],
    isLoading := false, error := "", savedRecipes := [],
    view := .generator, expandedRecipeIndex := none }

/-- Claim C6: with no image selected, `generateRecipes` only sets the
validation error — the saved store and every other state field are unchanged
— and the external inference service is invoked zero times. -/
theorem generateRecipes_no_image (st : AppState) (env : GenEnv)
    (h : st.selectedImage = none) :
    generateRecipes st env = ({ st with error := noImageMsg }, 0) := by
  unfold generateRecipes
  rw [h]

/-- Witness for C6 at a concrete state and environment. -/
theorem generateRecipes_no_image_witness :
    generateRecipes wApp ⟨some "payload", some "[]"⟩
      = ({ wApp with error := noImageMsg }, 0) :=
  generateRecipes_no_image wApp ⟨some "payload", some "[]"⟩ rfl

/-- A sample image file used in concrete witnesses. -/
def wFile : ImageFile := ⟨"photo.png", "image/png"⟩

/-- A sample state in which transient UI state is non-default. -/
def wAppBusy : AppState :=
  { wApp with isLoading := true, expandedRecipeIndex := some 0,
              view := .saved, savedRecipes := [wRecipe] }

/-- Claim C8 counterexample: selecting a new image does NOT clear the loading
flag or the expanded-item index — both survive `handleImageChange` — so the
claim that all transient UI state is reset is false on the code. -/
theorem handleImageChange_counterexample :
    (handleImageChange (some wFile) "blob:new" wAppBusy).isLoading = true
    ∧ (handleImageChange (some wFile) "blob:new" wAppBusy).expandedRecipeIndex = some 0 :=
  ⟨rfl, rfl⟩

/-- Claim C8 amended: selecting a new image replaces the selected file and
the preview URL and clears exactly the inference result set and the error
message, leaving the loading flag, the expanded-item index, the view mode and
the saved-recipe store unchanged; with no file picked nothing changes. -/
theorem handleImageChange_spec (f : ImageFile) (url : String) (st : AppState) :
    handleImageChange (some f) url st
      = { st with selectedImage := some f, previewUrl := url,
                  recipes := .arr [], error := "" }
    ∧ handleImageChange none url st = st :=
  ⟨rfl, rfl⟩

/-- Claim C5 counterexample: the empty string is not parseable as JSON, yet
`loadEffect` does not clear the key (the `if (storedRecipes)` guard is falsy
for `""`, so neither the parse nor the removal runs): the durable slot still
holds `""` afterwards. -/
theorem loadEffect_empty_string_counterexample :
    parseJson "" = none ∧ (loadEffect (some "")).storage = some "" :=
  ⟨rfl, rfl⟩

/-- Claim C5 amended: for every NON-EMPTY durable value that is not parseable
as JSON, the load effect yields the empty store and removes the corrupt key
(and, being a total function, never throws); the empty-string value also
yields an empty store but leaves the key in place. -/
theorem loadEffect_corrupt (s : String) (hne : s ≠ "") (hp : parseJson s = none) :
    loadEffect (some s) = { savedRecipes := .arr [], storage := none } := by
  simp only [loadEffect]
  rw [if_neg hne, hp]

/-- Witness for amended C5 at a concrete corrupt value. -/
theorem loadEffect_corrupt_witness :
    loadEffect (some "oops\x7b") = { savedRecipes := .arr [], storage := none } :=
  loadEffect_corrupt "oops\x7b" (by decide) rfl

/-- Claim C10: a durable value that parses as JSON — whether or not it
denotes a `Recipe[]` — is installed as the store unchanged, and the key is
not cleared: the corruption-recovery path triggers only on syntactic parse
failure. -/
theorem loadEffect_wellformed_json (s : String) (j : Json)
    (hp : parseJson s = some j) (_hnr : decodeRecipes j = none) :
    loadEffect (some s) = { savedRecipes := j, storage := some s } := by
  have hne : s ≠ "" := by
    intro h
    subst h
    exact Option.noConfusion hp
  simp only [loadEffect]
  rw [if_neg hne, hp]

/-- Witness for C10: the schema-incompatible durable value `"null"` is
installed as-is and the key survives. -/
theorem loadEffect_wellformed_json_witness :
    loadEffect (some "null") = { savedRecipes := .null, storage := some "null" } :=
  loadEffect_wellformed_json "null" .null rfl rfl


/-! ### Round-trip: the parser inverts the serializer -/

theorem hexVal_hexLower : ∀ k : Fin 16, hexVal (hexLower k.val) = some k.val := by
  decide

theorem skipWs_encStrTo (s : String) (X : List Char) :
    skipWs (encStrTo s X) = encStrTo s X := rfl

theorem skipWs_encStrArrTo (ss : List String) (X : List Char) :
    skipWs (encStrArrTo ss X) = encStrArrTo ss X := by
  cases ss <;> rfl

theorem skipWs_encNutritionTo (n : NutritionalInfo) (X : List Char) :
    skipWs (encNutritionTo n X) = encNutritionTo n X := rfl

theorem skipWs_encRecipeTo (r : Recipe) (X : List Char) :
    skipWs (encRecipeTo r X) = encRecipeTo r X := rfl

/-- Parsing one serialized character: `escChar` emits exactly one string-body
item, which `parseStringAux` decodes back to the same character. -/
theorem parseStringAux_escChar (fuel : Nat) (c : Char) (tail : List Char) :
    parseStringAux (fuel + 1) (escChar c ++ tail)
      = (parseStringAux fuel tail).map (fun p => (c :: p.1, p.2)) := by
  by_cases h1 : c = '"'
  · subst h1
    simp [escChar, parseStringAux, parseEscape]
  by_cases h2 : c = '\\'
  · subst h2
    simp [escChar, parseStringAux, parseEscape]
  by_cases h3 : c.toNat = 8
  · have hc : Char.ofNat 8 = c := by rw [← h3, Char.ofNat_toNat]
    simp only [escChar, if_neg h1, if_neg h2, if_pos h3, List.cons_append, List.nil_append]
    simp [parseStringAux, parseEscape]
    rw [hc]
  by_cases h4 : c.toNat = 9
  · have hc : Char.ofNat 9 = c := by rw [← h4, Char.ofNat_toNat]
    simp only [escChar, if_neg h1, if_neg h2, if_neg h3, if_pos h4, List.cons_append,
               List.nil_append]
    simp [parseStringAux, parseEscape]
    rw [hc]
  by_cases h5 : c.toNat = 10
  · have hc : Char.ofNat 10 = c := by rw [← h5, Char.ofNat_toNat]
    simp only [escChar, if_neg h1, if_neg h2, if_neg h3, if_neg h4, if_pos h5,
               List.cons_append, List.nil_append]
    simp [parseStringAux, parseEscape]
    rw [hc]
  by_cases h6 : c.toNat = 12
  · have hc : Char.ofNat 12 = c := by rw [← h6, Char.ofNat_toNat]
    simp only [escChar, if_neg h1, if_neg h2, if_neg h3, if_neg h4, if_neg h5, if_pos h6,
               List.cons_append, List.nil_append]
    simp [parseStringAux, parseEscape]
    rw [hc]
  by_cases h7 : c.toNat = 13
  · have hc : Char.ofNat 13 = c := by rw [← h7, Char.ofNat_toNat]
    simp only [escChar, if_neg h1, if_neg h2, if_neg h3, if_neg h4, if_neg h5, if_neg h6,
               if_pos h7, List.cons_append, List.nil_append]
    simp [parseStringAux, parseEscape]
    rw [hc]
  by_cases h8 : c.toNat < 32
  · simp only [escChar, if_neg h1, if_neg h2, if_neg h3, if_neg h4, if_neg h5, if_neg h6,
               if_neg h7, if_pos h8, List.cons_append, List.nil_append]
    have hd1 : hexVal (hexLower (c.toNat / 16)) = some (c.toNat / 16) := by
      simpa using hexVal_hexLower ⟨c.toNat / 16, by omega⟩
    have hd2 : hexVal (hexLower (c.toNat % 16)) = some (c.toNat % 16) := by
      simpa using hexVal_hexLower ⟨c.toNat % 16, by omega⟩
    have he : parseEscape
        ('u' :: '0' :: '0' :: hexLower (c.toNat / 16) :: hexLower (c.toNat % 16) :: tail)
        = some (c, tail) := by
      have hrfl : parseEscape
          ('u' :: '0' :: '0' :: hexLower (c.toNat / 16) :: hexLower (c.toNat % 16) :: tail)
          = (match hexVal '0', hexVal '0', hexVal (hexLower (c.toNat / 16)),
                   hexVal (hexLower (c.toNat % 16)) with
             | some w, some x, some y, some z =>
               some (Char.ofNat (((w * 16 + x) * 16 + y) * 16 + z), tail)
             | _, _, _, _ => none) := rfl
      rw [hrfl, hd1, hd2]
      simp only [show hexVal '0' = some 0 from rfl]
      have harith : ((0 * 16 + 0) * 16 + c.toNat / 16) * 16 + c.toNat % 16 = c.toNat := by
        omega
      rw [harith, Char.ofNat_toNat]
    simp [parseStringAux, he]
  · simp only [escChar, if_neg h1, if_neg h2, if_neg h3, if_neg h4, if_neg h5, if_neg h6,
               if_neg h7, if_neg h8, List.cons_append, List.nil_append]
    simp [parseStringAux, h1, h2, h8]

/-- Parsing a whole serialized string body: the escaped characters followed
by the closing quote decode back to the original characters, leaving
`rest`. -/
theorem parseStringAux_escListTo (cs : List Char) (fuel : Nat) (rest : List Char)
    (hf : cs.length < fuel) :
    parseStringAux fuel (escListTo cs ('"' :: rest)) = some (cs, rest) := by
  induction cs generalizing fuel with
  | nil =>
    cases fuel with
    | zero => omega
    | succ f => simp [escListTo, parseStringAux]
  | cons c cs ih =>
    cases fuel with
    | zero => omega
    | succ f =>
      have hshape : escListTo (c :: cs) ('"' :: rest)
          = escChar c ++ escListTo cs ('"' :: rest) := rfl
      rw [hshape, parseStringAux_escChar, ih f (by simp at hf; omega)]
      rfl

theorem escChar_length_pos (c : Char) : 1 ≤ (escChar c).length := by
  unfold escChar
  split_ifs <;> simp

theorem escListTo_length (cs X : List Char) :
    cs.length + X.length ≤ (escListTo cs X).length := by
  induction cs with
  | nil => simp [escListTo]
  | cons c cs ih =>
    have h1 := escChar_length_pos c
    have hshape : escListTo (c :: cs) X = escChar c ++ escListTo cs X := rfl
    rw [hshape]
    simp only [List.length_append, List.length_cons]
    omega

theorem encStrTo_length (s : String) (X : List Char) :
    s.data.length + X.length + 2 ≤ (encStrTo s X).length := by
  have h := escListTo_length s.data ('"' :: X)
  simp only [encStrTo, List.length_cons] at h ⊢
  omega

/-! ### Single-step evaluation lemmas for the value parser -/

theorem parseValue_quote (fuel : Nat) (l cs r : List Char)
    (h : parseStringAux (l.length + 1) l = some (cs, r)) :
    parseValue (fuel + 1) ('"' :: l) = some (.str ⟨cs⟩, r) := by
  simp [parseValue, h]

theorem parseValue_arr_elems (fuel : Nat) (c : Char) (l : List Char) (js : List Json)
    (r : List Char) (hc : isJsonWs c = false) (hne : c ≠ ']')
    (h : parseElems fuel (c :: l) = some (js, r)) :
    parseValue (fuel + 1) ('[' :: c :: l) = some (.arr js, r) := by
  simp [parseValue, skipWs, hc, h, hne]

theorem parseValue_obj_members (fuel : Nat) (c : Char) (l : List Char)
    (ms : List (String × Json)) (r : List Char) (hc : isJsonWs c = false) (hne : c ≠ '}')
    (h : parseMembers fuel (c :: l) = some (ms, r)) :
    parseValue (fuel + 1) ('{' :: c :: l) = some (.obj ms, r) := by
  simp [parseValue, skipWs, hc, h, hne]

theorem parseValue_arr_empty (fuel : Nat) (r : List Char) :
    parseValue (fuel + 1) ('[' :: ']' :: r) = some (.arr [], r) := by
  simp [parseValue, skipWs, isJsonWs]

theorem parseElems_step_last (fuel : Nat) (cs : List Char) (v : Json) (tail : List Char)
    (hv : parseValue fuel cs = some (v, ']' :: tail)) :
    parseElems (fuel + 1) cs = some ([v], tail) := by
  simp [parseElems, hv, skipWs, isJsonWs]

theorem parseElems_step_more (fuel : Nat) (cs C : List Char) (v : Json) (js : List Json)
    (tail : List Char) (hv : parseValue fuel cs = some (v, ',' :: C))
    (hrec : parseElems fuel (skipWs C) = some (js, tail)) :
    parseElems (fuel + 1) cs = some (v :: js, tail) := by
  simp [parseElems, hv, skipWs, isJsonWs, hrec]

theorem parseMembers_step_last (fuel : Nat) (cs1 k r2 : List Char) (v : Json)
    (tail : List Char)
    (hk : parseStringAux (cs1.length + 1) cs1 = some (k, ':' :: r2))
    (hv : parseValue fuel (skipWs r2) = some (v, '}' :: tail)) :
    parseMembers (fuel + 1) ('"' :: cs1) = some ([(⟨k⟩, v)], tail) := by
  simp [parseMembers, hk, hv, skipWs, isJsonWs]

theorem parseMembers_step_more (fuel : Nat) (cs1 k r2 C : List Char) (v : Json)
    (ms : List (String × Json)) (tail : List Char)
    (hk : parseStringAux (cs1.length + 1) cs1 = some (k, ':' :: r2))
    (hv : parseValue fuel (skipWs r2) = some (v, ',' :: C))
    (hrec : parseMembers fuel (skipWs C) = some (ms, tail)) :
    parseMembers (fuel + 1) ('"' :: cs1) = some ((⟨k⟩, v) :: ms, tail) := by
  simp [parseMembers, hk, hv, skipWs, isJsonWs, hrec]

/-! ### Compositional serializer specifications -/

/-- `enc` serializes exactly the JSON value `v`: for every fuel of at least
`need` and every continuation `rest`, the value parser consumes the
serialized text and returns `v` with `rest` untouched. -/
def ParsesVal (need : Nat) (enc : List Char → List Char) (v : Json) : Prop :=
  ∀ fuel rest, need ≤ fuel → parseValue fuel (enc rest) = some (v, rest)

/-- `enc` serializes the elements of a non-empty array (from the first
element through the closing `]`). -/
def ParsesElems (need : Nat) (enc : List Char → List Char) (js : List Json) : Prop :=
  ∀ fuel rest, need ≤ fuel → parseElems fuel (enc rest) = some (js, rest)

/-- `enc` serializes the members of a non-empty object (from the first key
through the closing `}`). -/
def ParsesMembers (need : Nat) (enc : List Char → List Char)
    (ms : List (String × Json)) : Prop :=
  ∀ fuel rest, need ≤ fuel → parseMembers fuel (enc rest) = some (ms, rest)

theorem parsesVal_mono {need need' : Nat} {enc v} (h : ParsesVal need enc v)
    (hle : need ≤ need') : ParsesVal need' enc v :=
  fun fuel rest hf => h fuel rest (by omega)

theorem parsesMembers_mono {need need' : Nat} {enc ms} (h : ParsesMembers need enc ms)
    (hle : need ≤ need') : ParsesMembers need' enc ms :=
  fun fuel rest hf => h fuel rest (by omega)

/-- Serialized strings parse back to the same string value. -/
theorem parsesVal_str (s : String) : ParsesVal 1 (encStrTo s) (.str s) := by
  intro fuel rest hf
  cases fuel with
  | zero => omega
  | succ f =>
    show parseValue (f + 1) ('"' :: escListTo s.data ('"' :: rest)) = some (.str s, rest)
    have hlen := escListTo_length s.data ('"' :: rest)
    simp only [List.length_cons] at hlen
    exact parseValue_quote f _ s.data rest
      (parseStringAux_escListTo s.data _ rest (by omega))

/-- Serialized elements of a `string[]` parse back to the string values. -/
theorem parsesElems_strs (s : String) (ss : List String) :
    ParsesElems (2 * ss.length + 2)
      (fun rest => encStrTo s (encStrElemsTo ss rest))
      ((s :: ss).map Json.str) := by
  induction ss generalizing s with
  | nil =>
    intro fuel rest hf
    simp only [List.length_nil] at hf
    cases fuel with
    | zero => omega
    | succ f =>
      show parseElems (f + 1) (encStrTo s (']' :: rest)) = some ([Json.str s], rest)
      exact parseElems_step_last f _ _ _ (parsesVal_str s f (']' :: rest) (by omega))
  | cons s2 ss ih =>
    intro fuel rest hf
    simp only [List.length_cons] at hf
    cases fuel with
    | zero => omega
    | succ f =>
      have hv : parseValue f (encStrTo s (',' :: encStrTo s2 (encStrElemsTo ss rest)))
          = some (.str s, ',' :: encStrTo s2 (encStrElemsTo ss rest)) :=
        parsesVal_str s f _ (by omega)
      have hrec : parseElems f (skipWs (encStrTo s2 (encStrElemsTo ss rest)))
          = some ((s2 :: ss).map Json.str, rest) := by
        rw [skipWs_encStrTo]
        exact ih s2 f rest (by omega)
      show parseElems (f + 1) (encStrTo s (',' :: encStrTo s2 (encStrElemsTo ss rest)))
          = some (.str s :: (s2 :: ss).map Json.str, rest)
      exact parseElems_step_more f _ _ _ _ _ hv hrec

/-- Serialized `string[]` values parse back to the corresponding JSON
array. -/
theorem parsesVal_strArr (ss : List String) :
    ParsesVal (2 * ss.length + 3) (encStrArrTo ss) (.arr (ss.map Json.str)) := by
  cases ss with
  | nil =>
    intro fuel rest hf
    simp only [List.length_nil] at hf
    cases fuel with
    | zero => omega
    | succ f =>
      show parseValue (f + 1) ('[' :: ']' :: rest) = some (.arr [], rest)
      exact parseValue_arr_empty f rest
  | cons s ss =>
    intro fuel rest hf
    simp only [List.length_cons] at hf
    cases fuel with
    | zero => omega
    | succ f =>
      show parseValue (f + 1)
          ('[' :: '"' :: escListTo s.data ('"' :: encStrElemsTo ss rest))
          = some (.arr ((s :: ss).map Json.str), rest)
      exact parseValue_arr_elems f '"' _ _ rest rfl (by decide)
        (parsesElems_strs s ss f rest (by omega))

/-- A single final object member: key, colon, value, closing brace. -/
theorem parsesMembers_last (k : String) (need : Nat) (venc : List Char → List Char)
    (v : Json) (hv : ParsesVal need venc v)
    (hnw : ∀ X, skipWs (venc X) = venc X) :
    ParsesMembers (need + 1)
      (fun rest => encStrTo k (':' :: venc ('}' :: rest))) [(k, v)] := by
  intro fuel rest hf
  cases fuel with
  | zero => omega
  | succ f =>
    show parseMembers (f + 1)
        ('"' :: escListTo k.data ('"' :: ':' :: venc ('}' :: rest)))
        = some ([(k, v)], rest)
    have hlen := escListTo_length k.data ('"' :: ':' :: venc ('}' :: rest))
    simp only [List.length_cons] at hlen
    have hk := parseStringAux_escListTo k.data
      ((escListTo k.data ('"' :: ':' :: venc ('}' :: rest))).length + 1)
      (':' :: venc ('}' :: rest)) (by omega)
    have hv' : parseValue f (skipWs (venc ('}' :: rest))) = some (v, '}' :: rest) := by
      rw [hnw]
      exact hv f _ (by omega)
    exact parseMembers_step_last f _ _ _ _ _ hk hv'

/-- An object member followed by a comma and further members. -/
theorem parsesMembers_cons (k : String) (vneed : Nat) (venc : List Char → List Char)
    (v : Json) (mneed : Nat) (menc : List Char → List Char) (ms : List (String × Json))
    (hv : ParsesVal vneed venc v) (hnwv : ∀ X, skipWs (venc X) = venc X)
    (hm : ParsesMembers mneed menc ms) (hnwm : ∀ X, skipWs (menc X) = menc X) :
    ParsesMembers (vneed + mneed + 1)
      (fun rest => encStrTo k (':' :: venc (',' :: menc rest))) ((k, v) :: ms) := by
  intro fuel rest hf
  cases fuel with
  | zero => omega
  | succ f =>
    show parseMembers (f + 1)
        ('"' :: escListTo k.data ('"' :: ':' :: venc (',' :: menc rest)))
        = some ((k, v) :: ms, rest)
    have hlen := escListTo_length k.data ('"' :: ':' :: venc (',' :: menc rest))
    simp only [List.length_cons] at hlen
    have hk := parseStringAux_escListTo k.data
      ((escListTo k.data ('"' :: ':' :: venc (',' :: menc rest))).length + 1)
      (':' :: venc (',' :: menc rest)) (by omega)
    have hv' : parseValue f (skipWs (venc (',' :: menc rest)))
        = some (v, ',' :: menc rest) := by
      rw [hnwv]
      exact hv f _ (by omega)
    have hrec : parseMembers f (skipWs (menc rest)) = some (ms, rest) := by
      rw [hnwm]
      exact hm f rest (by omega)
    exact parseMembers_step_more f _ _ _ _ _ _ _ hk hv' hrec

/-- A serialized object whose members start with a key parses back to the
object value. -/
theorem parsesVal_obj (mneed : Nat) (menc : List Char → List Char)
    (ms : List (String × Json)) (hm : ParsesMembers mneed menc ms)
    (hq : ∀ X, ∃ cs', menc X = '"' :: cs') :
    ParsesVal (mneed + 1) (fun rest => '{' :: menc rest) (.obj ms) := by
  intro fuel rest hf
  cases fuel with
  | zero => omega
  | succ f =>
    obtain ⟨cs', hcs⟩ := hq rest
    show parseValue (f + 1) ('{' :: menc rest) = some (.obj ms, rest)
    rw [hcs]
    exact parseValue_obj_members f '"' cs' ms rest rfl (by decide)
      (hcs ▸ hm f rest (by omega))

/-- Serialized `nutritionalInfo` records parse back to their JSON object. -/
theorem parsesVal_nutrition (n : NutritionalInfo) :
    ParsesVal 10 (encNutritionTo n) (encodeNutrition n) := by
  have m4 := parsesMembers_last "fats" 1 (encStrTo n.fats) (.str n.fats)
    (parsesVal_str n.fats) (fun X => skipWs_encStrTo _ _)
  have m3 := parsesMembers_cons "carbohydrates" 1 (encStrTo n.carbohydrates)
    (.str n.carbohydrates) 2 _ _ (parsesVal_str n.carbohydrates)
    (fun X => skipWs_encStrTo _ _) m4 (fun X => skipWs_encStrTo _ _)
  have m2 := parsesMembers_cons "protein" 1 (encStrTo n.protein)
    (.str n.protein) 4 _ _ (parsesVal_str n.protein)
    (fun X => skipWs_encStrTo _ _) m3 (fun X => skipWs_encStrTo _ _)
  have m1 := parsesMembers_cons "calories" 1 (encStrTo n.calories)
    (.str n.calories) 6 _ _ (parsesVal_str n.calories)
    (fun X => skipWs_encStrTo _ _) m2 (fun X => skipWs_encStrTo _ _)
  have hobj := parsesVal_obj 8 _ _ m1 (fun X => ⟨_, rfl⟩)
  exact parsesVal_mono hobj (by omega)

/-- Serialized recipes parse back to their JSON object. -/
theorem parsesVal_recipe (r : Recipe) :
    ParsesVal (2 * r.ingredients.length + 2 * r.instructions.length + 30)
      (encRecipeTo r) (encodeRecipe r) := by
  have m5 := parsesMembers_last "nutritionalInfo" 10 (encNutritionTo r.nutritionalInfo)
    (encodeNutrition r.nutritionalInfo) (parsesVal_nutrition r.nutritionalInfo)
    (fun X => skipWs_encNutritionTo _ _)
  have m4 := parsesMembers_cons "servingSize" 1 (encStrTo r.servingSize)
    (.str r.servingSize) 11 _ _ (parsesVal_str r.servingSize)
    (fun X => skipWs_encStrTo _ _) m5 (fun X => skipWs_encStrTo _ _)
  have m3 := parsesMembers_mono (parsesMembers_cons "instructions" (2 * r.instructions.length + 3)
    (encStrArrTo r.instructions) (.arr (r.instructions.map Json.str)) 13 _ _
    (parsesVal_strArr r.instructions) (fun X => skipWs_encStrArrTo _ _)
    m4 (fun X => skipWs_encStrTo _ _))
    (show 2 * r.instructions.length + 3 + 13 + 1 ≤ 2 * r.instructions.length + 17 by omega)
  have m2 := parsesMembers_mono (parsesMembers_cons "ingredients" (2 * r.ingredients.length + 3)
    (encStrArrTo r.ingredients) (.arr (r.ingredients.map Json.str))
    (2 * r.instructions.length + 17) _ _
    (parsesVal_strArr r.ingredients) (fun X => skipWs_encStrArrTo _ _)
    m3 (fun X => skipWs_encStrTo _ _))
    (show 2 * r.ingredients.length + 3 + (2 * r.instructions.length + 17) + 1
        ≤ 2 * r.ingredients.length + 2 * r.instructions.length + 21 by omega)
  have m1 := parsesMembers_mono (parsesMembers_cons "recipeName" 1 (encStrTo r.recipeName)
    (.str r.recipeName) (2 * r.ingredients.length + 2 * r.instructions.length + 21) _ _
    (parsesVal_str r.recipeName) (fun X => skipWs_encStrTo _ _)
    m2 (fun X => skipWs_encStrTo _ _))
    (show 1 + (2 * r.ingredients.length + 2 * r.instructions.length + 21) + 1
        ≤ 2 * r.ingredients.length + 2 * r.instructions.length + 23 by omega)
  have hobj := parsesVal_obj
    (2 * r.ingredients.length + 2 * r.instructions.length + 23) _ _ m1
    (fun X => ⟨_, rfl⟩)
  exact parsesVal_mono hobj (by omega)

/-- Fuel that suffices to parse a serialized `Recipe[]`. -/
def recipesNeed : List Recipe → Nat
  | [] => 1
  | r :: l => 2 * r.ingredients.length + 2 * r.instructions.length + 30
      + recipesNeed l + 1

/-- Serialized elements of a `Recipe[]` parse back to the recipes' JSON
objects. -/
theorem parsesElems_recipes (r : Recipe) (l : List Recipe) :
    ParsesElems (recipesNeed (r :: l))
      (fun rest => encRecipeTo r (encRecipeElemsTo l rest))
      ((r :: l).map encodeRecipe) := by
  induction l generalizing r with
  | nil =>
    intro fuel rest hf
    simp only [recipesNeed] at hf
    cases fuel with
    | zero => omega
    | succ f =>
      show parseElems (f + 1) (encRecipeTo r (']' :: rest))
          = some ([encodeRecipe r], rest)
      exact parseElems_step_last f _ _ _ (parsesVal_recipe r f (']' :: rest) (by omega))
  | cons r2 l ih =>
    intro fuel rest hf
    simp only [recipesNeed] at hf
    cases fuel with
    | zero => omega
    | succ f =>
      have hv : parseValue f
          (encRecipeTo r (',' :: encRecipeTo r2 (encRecipeElemsTo l rest)))
          = some (encodeRecipe r, ',' :: encRecipeTo r2 (encRecipeElemsTo l rest)) :=
        parsesVal_recipe r f _ (by omega)
      have hrec : parseElems f (skipWs (encRecipeTo r2 (encRecipeElemsTo l rest)))
          = some ((r2 :: l).map encodeRecipe, rest) := by
        rw [skipWs_encRecipeTo]
        exact ih r2 f rest (by simp only [recipesNeed]; omega)
      show parseElems (f + 1)
          (encRecipeTo r (',' :: encRecipeTo r2 (encRecipeElemsTo l rest)))
          = some (encodeRecipe r :: (r2 :: l).map encodeRecipe, rest)
      exact parseElems_step_more f _ _ _ _ _ hv hrec

/-- Serialized `Recipe[]` values parse back to their JSON array. -/
theorem parsesVal_recipes (l : List Recipe) :
    ParsesVal (recipesNeed l + 1) (encRecipesTo l) (encodeRecipes l) := by
  cases l with
  | nil =>
    intro fuel rest hf
    simp only [recipesNeed] at hf
    cases fuel with
    | zero => omega
    | succ f =>
      show parseValue (f + 1) ('[' :: ']' :: rest) = some (.arr [], rest)
      exact parseValue_arr_empty f rest
  | cons r l =>
    intro fuel rest hf
    simp only [recipesNeed] at hf
    cases fuel with
    | zero => omega
    | succ f =>
      show parseValue (f + 1) ('[' :: '{' :: encRecipeBodyTo r (encRecipeElemsTo l rest))
          = some (.arr ((r :: l).map encodeRecipe), rest)
      exact parseValue_arr_elems f '{' _ _ rest rfl (by decide)
        (parsesElems_recipes r l f rest (by simp only [recipesNeed]; omega))

/-! ### The fuel supplied by `parseJson` suffices for serialized stores -/

theorem encStrElemsTo_length (ss : List String) (X : List Char) :
    ss.length + X.length + 1 ≤ (encStrElemsTo ss X).length := by
  induction ss with
  | nil => simp [encStrElemsTo]
  | cons s ss ih =>
    have h1 := encStrTo_length s (encStrElemsTo ss X)
    simp only [encStrElemsTo, List.length_cons]
    omega

theorem encStrArrTo_length (ss : List String) (X : List Char) :
    ss.length + X.length + 2 ≤ (encStrArrTo ss X).length := by
  cases ss with
  | nil => simp [encStrArrTo]
  | cons s ss =>
    have h1 := encStrTo_length s (encStrElemsTo ss X)
    have h2 := encStrElemsTo_length ss X
    simp only [encStrArrTo, List.length_cons]
    omega

theorem encNutritionTo_length (n : NutritionalInfo) (X : List Char) :
    X.length + 40 ≤ (encNutritionTo n X).length := by
  have h1 := encStrTo_length n.fats ('}' :: X)
  have h2 := encStrTo_length "fats" (':' :: encStrTo n.fats ('}' :: X))
  have h3 := encStrTo_length n.carbohydrates
    (',' :: encStrTo "fats" (':' :: encStrTo n.fats ('}' :: X)))
  have h4 := encStrTo_length "carbohydrates" (':' :: encStrTo n.carbohydrates
    (',' :: encStrTo "fats" (':' :: encStrTo n.fats ('}' :: X))))
  have h5 := encStrTo_length n.protein (',' :: encStrTo "carbohydrates"
    (':' :: encStrTo n.carbohydrates
      (',' :: encStrTo "fats" (':' :: encStrTo n.fats ('}' :: X)))))
  have h6 := encStrTo_length "protein" (':' :: encStrTo n.protein
    (',' :: encStrTo "carbohydrates" (':' :: encStrTo n.carbohydrates
      (',' :: encStrTo "fats" (':' :: encStrTo n.fats ('}' :: X))))))
  have h7 := encStrTo_length n.calories (',' :: encStrTo "protein"
    (':' :: encStrTo n.protein (',' :: encStrTo "carbohydrates"
      (':' :: encStrTo n.carbohydrates
        (',' :: encStrTo "fats" (':' :: encStrTo n.fats ('}' :: X)))))))
  have h8 := encStrTo_length "calories" (':' :: encStrTo n.calories
    (',' :: encStrTo "protein" (':' :: encStrTo n.protein
      (',' :: encStrTo "carbohydrates" (':' :: encStrTo n.carbohydrates
        (',' :: encStrTo "fats" (':' :: encStrTo n.fats ('}' :: X))))))))
  simp only [List.length_cons] at h1 h2 h3 h4 h5 h6 h7 h8
  simp only [encNutritionTo, encNutritionBodyTo, List.length_cons]
  omega

theorem encRecipeTo_length (r : Recipe) (X : List Char) :
    r.ingredients.length + r.instructions.length + X.length + 40
      ≤ (encRecipeTo r X).length := by
  have h1 := encNutritionTo_length r.nutritionalInfo ('}' :: X)
  have h2 := encStrTo_length "nutritionalInfo"
    (':' :: encNutritionTo r.nutritionalInfo ('}' :: X))
  have h3 := encStrTo_length r.servingSize (',' :: encStrTo "nutritionalInfo"
    (':' :: encNutritionTo r.nutritionalInfo ('}' :: X)))
  have h4 := encStrTo_length "servingSize" (':' :: encStrTo r.servingSize
    (',' :: encStrTo "nutritionalInfo"
      (':' :: encNutritionTo r.nutritionalInfo ('}' :: X))))
  have h5 := encStrArrTo_length r.instructions (',' :: encStrTo "servingSize"
    (':' :: encStrTo r.servingSize (',' :: encStrTo "nutritionalInfo"
      (':' :: encNutritionTo r.nutritionalInfo ('}' :: X)))))
  have h6 := encStrTo_length "instructions" (':' :: encStrArrTo r.instructions
    (',' :: encStrTo "servingSize" (':' :: encStrTo r.servingSize
      (',' :: encStrTo "nutritionalInfo"
        (':' :: encNutritionTo r.nutritionalInfo ('}' :: X))))))
  have h7 := encStrArrTo_length r.ingredients (',' :: encStrTo "instructions"
    (':' :: encStrArrTo r.instructions (',' :: encStrTo "servingSize"
      (':' :: encStrTo r.servingSize (',' :: encStrTo "nutritionalInfo"
        (':' :: encNutritionTo r.nutritionalInfo ('}' :: X)))))))
  have h8 := encStrTo_length "ingredients" (':' :: encStrArrTo r.ingredients
    (',' :: encStrTo "instructions" (':' :: encStrArrTo r.instructions
      (',' :: encStrTo "servingSize" (':' :: encStrTo r.servingSize
        (',' :: encStrTo "nutritionalInfo"
          (':' :: encNutritionTo r.nutritionalInfo ('}' :: X))))))))
  have h9 := encStrTo_length r.recipeName (',' :: encStrTo "ingredients"
    (':' :: encStrArrTo r.ingredients (',' :: encStrTo "instructions"
      (':' :: encStrArrTo r.instructions (',' :: encStrTo "servingSize"
        (':' :: encStrTo r.servingSize (',' :: encStrTo "nutritionalInfo"
          (':' :: encNutritionTo r.nutritionalInfo ('}' :: X)))))))))
  have h10 := encStrTo_length "recipeName" (':' :: encStrTo r.recipeName
    (',' :: encStrTo "ingredients" (':' :: encStrArrTo r.ingredients
      (',' :: encStrTo "instructions" (':' :: encStrArrTo r.instructions
        (',' :: encStrTo "servingSize" (':' :: encStrTo r.servingSize
          (',' :: encStrTo "nutritionalInfo"
            (':' :: encNutritionTo r.nutritionalInfo ('}' :: X))))))))))
  simp only [List.length_cons] at h1 h2 h3 h4 h5 h6 h7 h8 h9 h10
  simp only [encRecipeTo, encRecipeBodyTo, List.length_cons]
  omega

theorem encRecipeElemsTo_need (l : List Recipe) (X : List Char) :
    recipesNeed l ≤ 2 * (encRecipeElemsTo l X).length := by
  induction l with
  | nil =>
    simp only [recipesNeed, encRecipeElemsTo, List.length_cons]
    omega
  | cons r l ih =>
    have h1 := encRecipeTo_length r (encRecipeElemsTo l X)
    simp only [recipesNeed, encRecipeElemsTo, List.length_cons]
    omega

theorem encRecipesTo_need (l : List Recipe) (X : List Char) :
    recipesNeed l + 1 ≤ 2 * (encRecipesTo l X).length + 2 := by
  cases l with
  | nil => simp [recipesNeed, encRecipesTo]
  | cons r l =>
    have h1 := encRecipeTo_length r (encRecipeElemsTo l X)
    have h2 := encRecipeElemsTo_need l X
    simp only [recipesNeed, encRecipesTo, List.length_cons]
    omega

theorem skipWs_encRecipesTo (l : List Recipe) (X : List Char) :
    skipWs (encRecipesTo l X) = encRecipesTo l X := by
  cases l <;> rfl

/-- The serialized store parses back to exactly the store's JSON value:
`JSON.parse(JSON.stringify(recipes))` succeeds and returns the denoted
array. -/
theorem parseJson_stringifyRecipes (l : List Recipe) :
    parseJson (stringifyRecipes l) = some (encodeRecipes l) := by
  have hdata : (stringifyRecipes l).data = encRecipesTo l [] := rfl
  have hval := parsesVal_recipes l (2 * (encRecipesTo l []).length + 2) []
    (by have := encRecipesTo_need l ([] : List Char); omega)
  simp only [parseJson, hdata, skipWs_encRecipesTo, hval]
  rfl

/-! ### Reading the parsed value back as `Recipe` records -/

theorem asStrListAux_map_str (ss : List String) :
    asStrListAux (ss.map Json.str) = some ss := by
  induction ss with
  | nil => rfl
  | cons s ss ih => simp [asStrListAux, asStr, ih]

theorem decodeNutrition_encodeNutrition (n : NutritionalInfo) :
    decodeNutrition (encodeNutrition n) = some n := rfl

theorem decodeRecipe_encodeRecipe (r : Recipe) :
    decodeRecipe (encodeRecipe r) = some r := by
  have g1 : getField (encodeRecipe r) "recipeName" = some (.str r.recipeName) := rfl
  have g2 : getField (encodeRecipe r) "ingredients"
      = some (.arr (r.ingredients.map Json.str)) := rfl
  have g3 : getField (encodeRecipe r) "instructions"
      = some (.arr (r.instructions.map Json.str)) := rfl
  have g4 : getField (encodeRecipe r) "servingSize" = some (.str r.servingSize) := rfl
  have g5 : getField (encodeRecipe r) "nutritionalInfo"
      = some (encodeNutrition r.nutritionalInfo) := rfl
  simp [decodeRecipe, g1, g2, g3, g4, g5, asStr, asStrList, asStrListAux_map_str,
        decodeNutrition_encodeNutrition]

theorem decodeRecipes_encodeRecipes (l : List Recipe) :
    decodeRecipes (encodeRecipes l) = some l := by
  induction l with
  | nil => rfl
  | cons r l ih =>
    simp only [decodeRecipes, encodeRecipes, List.map_cons, decodeRecipesAux,
               decodeRecipe_encodeRecipe] at ih ⊢
    simp [ih]

/-- Claim C9: serializing the store to its JSON string form and deserializing
that string reproduces the store: the parse returns exactly the store's JSON
value, and reading it back as `Recipe` records gives a field-for-field equal
sequence. -/
theorem stringify_parse_roundtrip (l : List Recipe) :
    parseJson (stringifyRecipes l) = some (encodeRecipes l)
    ∧ (parseJson (stringifyRecipes l)).bind decodeRecipes = some l := by
  refine ⟨parseJson_stringifyRecipes l, ?_⟩
  rw [parseJson_stringifyRecipes l]
  simpa using decodeRecipes_encodeRecipes l

theorem stringifyRecipes_ne_empty (l : List Recipe) : stringifyRecipes l ≠ "" := by
  intro h
  have hd : (stringifyRecipes l).data = [] := by rw [h]
  have he : (stringifyRecipes l).data = encRecipesTo l [] := rfl
  rw [he] at hd
  cases l <;> simp [encRecipesTo] at hd

/-- Claim C3: after a save that appends and after every delete, the durable
slot holds the full JSON serialization of the in-memory store; consequently a
delete followed by the load effect — after any prior operation sequence from
the initial store — reinstalls exactly the JSON value of the in-memory store
after the delete, which reads back as that same recipe list. -/
theorem mutation_persists_and_reloads (st : StoreState) (r : Recipe) (i : Nat)
    (ops : List StoreOp) :
    ((st.savedRecipes.any (fun x => x.recipeName == r.recipeName)) = false →
      (saveRecipe r st).storage
        = some (stringifyRecipes (saveRecipe r st).savedRecipes))
    ∧ (deleteRecipe i st).storage
        = some (stringifyRecipes (deleteRecipe i st).savedRecipes)
    ∧ (loadEffect (deleteRecipe i (runOps ops initialStore)).storage).savedRecipes
        = encodeRecipes (deleteRecipe i (runOps ops initialStore)).savedRecipes
    ∧ decodeRecipes
        (encodeRecipes (deleteRecipe i (runOps ops initialStore)).savedRecipes)
        = some ((deleteRecipe i (runOps ops initialStore)).savedRecipes) := by
  refine ⟨?_, rfl, ?_, decodeRecipes_encodeRecipes _⟩
  · intro h
    simp [saveRecipe, h]
  · have hs : (deleteRecipe i (runOps ops initialStore)).storage
        = some (stringifyRecipes
            (deleteRecipe i (runOps ops initialStore)).savedRecipes) := rfl
    rw [hs]
    have hne := stringifyRecipes_ne_empty
      (deleteRecipe i (runOps ops initialStore)).savedRecipes
    simp only [loadEffect, if_neg hne, parseJson_stringifyRecipes]

/-- Witness for C3 at concrete inputs: an appending save writes the
serialized store, and a delete after two saves reloads to the in-memory
store. -/
theorem mutation_persists_and_reloads_witness :
    (saveRecipe wRecipe initialStore).storage
      = some (stringifyRecipes (saveRecipe wRecipe initialStore).savedRecipes)
    ∧ (loadEffect (deleteRecipe 0
          (runOps [StoreOp.save wRecipe, StoreOp.save wRecipe2] initialStore)).storage).savedRecipes
      = encodeRecipes (deleteRecipe 0
          (runOps [StoreOp.save wRecipe, StoreOp.save wRecipe2] initialStore)).savedRecipes := by
  have h := mutation_persists_and_reloads initialStore wRecipe 0
    [StoreOp.save wRecipe, StoreOp.save wRecipe2]
  exact ⟨h.1 (by decide), h.2.2.1⟩

/-- A sample transient state with an image selected. -/
def wAppImg : AppState := { wApp with selectedImage := some wFile }

/-- Claim C7 counterexample: with an image selected and the external service
returning the parseable but non-conforming text `"hi"` (a JSON string),
`generateRecipes` neither signals the generic failure (the error message
stays empty) nor returns Recipe records: the parsed value is installed as the
result set unvalidated. -/
theorem generateRecipes_counterexample :
    (generateRecipes wAppImg ⟨some "payload", some "\"hi\""⟩).1.error = ""
    ∧ (generateRecipes wAppImg ⟨some "payload", some "\"hi\""⟩).1.recipes = .str "hi"
    ∧ decodeRecipes (.str "hi") = none :=
  ⟨rfl, rfl, rfl⟩

/-- Claim C7 amended: with an image selected, `generateRecipes` (a total
function: the `try/catch` never lets an exception escape) either signals the
single generic failure message with an empty result set — collapsing encoding
failure, external-call failure and response-parse failure — or installs the
parsed response JSON unvalidated with no error; in particular, whenever the
response text is the serialization of a list of recipes, the installed result
reads back as exactly those recipes. -/
theorem generateRecipes_spec (st : AppState) (env : GenEnv)
    (h : st.selectedImage ≠ none) :
    ((generateRecipes st env).1.error = genFailMsg
        ∧ (generateRecipes st env).1.recipes = .arr []
      ∨ ((generateRecipes st env).1.error = ""
        ∧ ∃ text, env.response = some text
            ∧ parseJson text = some ((generateRecipes st env).1.recipes)))
    ∧ (∀ l : List Recipe, env.encodeResult ≠ none
        → env.response = some (stringifyRecipes l)
        → decodeRecipes ((generateRecipes st env).1.recipes) = some l) := by
  obtain ⟨img, himg⟩ : ∃ i, st.selectedImage = some i := by
    cases hsel : st.selectedImage with
    | none => exact absurd hsel h
    | some i => exact ⟨i, rfl⟩
  constructor
  · rcases henc : env.encodeResult with _ | payload
    · left
      constructor <;> simp [generateRecipes, himg, henc]
    · rcases hresp : env.response with _ | text
      · left
        constructor <;> simp [generateRecipes, himg, henc, hresp]
      · rcases hp : parseJson text with _ | j
        · left
          constructor <;> simp [generateRecipes, himg, henc, hresp, hp]
        · right
          refine ⟨by simp [generateRecipes, himg, henc, hresp, hp], text, rfl, ?_⟩
          simp [generateRecipes, himg, henc, hresp, hp]
  · intro l henc2 hresp2
    rcases henc : env.encodeResult with _ | payload
    · exact absurd henc henc2
    · simp [generateRecipes, himg, henc, hresp2, parseJson_stringifyRecipes,
            decodeRecipes_encodeRecipes]

/-- Witness for amended C7: a conforming response containing one serialized
recipe is installed and reads back as that recipe, with no error. -/
theorem generateRecipes_spec_witness :
    decodeRecipes ((generateRecipes wAppImg
        ⟨some "payload", some (stringifyRecipes [wRecipe])⟩).1.recipes)
      = some [wRecipe]
    ∧ (generateRecipes wAppImg
        ⟨some "payload", some (stringifyRecipes [wRecipe])⟩).1.error = "" := by
  have h := generateRecipes_spec wAppImg
    ⟨some "payload", some (stringifyRecipes [wRecipe])⟩ (by decide)
  exact ⟨h.2 [wRecipe] (by simp) rfl, rfl⟩
